import Mathlib

/-!
Verification of the `@st-lib/form` typed form-state utility (`src/index.ts`).

The development shallowly embeds the library's two concerns:

* the field-tree builder (`createField` / `createScalarField` /
  `createObjectField` / `createArrayField` / `createForm`), and
* the data extractor (`getFieldData` and its per-type helpers,
  `getFormData`),

over an inductive model `RawVal` of the JavaScript values the library
manipulates (null, undefined, booleans, numbers, strings, Date objects,
File objects, arrays, plain objects).  JavaScript numbers are modelled as
integers (`Int`); the decimal print/parse helpers that the runtime and the
`@st-lib/is` package provide (`Number.prototype.toString`, `Number(...)`,
`isNumberString`) are modelled from the spec as executable functions below.

Stateful behaviour (the mutable backing array captured by
`createArrayField`, the aliased backing object of `createObjectField`, and
the setter callbacks) is embedded with explicit state passing: operations
return their result together with the updated captured state and the list
of arguments the relevant `setValue` callback was invoked with, in order.
-/

/-! ## Decimal strings (modelled JS runtime helpers) -/

/-- Fuel-driven decimal printer for naturals: the digit characters of `n`,
most significant first.  `fuel` only needs to exceed the digit count;
callers pass `n + 1`. -/
def natDigitsAux : Nat → Nat → List Char
  | 0, _ => []
  | fuel + 1, n =>
    if n < 10 then [Nat.digitChar n]
    else natDigitsAux fuel (n / 10) ++ [Nat.digitChar (n % 10)]

/-- Decimal representation of a natural number. -/
def natToStr (n : Nat) : String := String.mk (natDigitsAux (n + 1) n)

/-- Accumulating decimal parser over a character list; fails on any
non-digit character. -/
def parseDigitsAux (acc : Nat) : List Char → Option Nat
  | [] => some acc
  | c :: rest =>
    if c.isDigit then parseDigitsAux (acc * 10 + (c.toNat - 48)) rest
    else none

/-- Parse a non-empty all-digit character list as a natural number. -/
def parseNatDigits : List Char → Option Nat
  | [] => none
  | c :: rest => parseDigitsAux 0 (c :: rest)

/-- Modelled from the spec: JS `Number.prototype.toString` for the integer
model of JS numbers (the library stores `value.toString()` as the string
buffer of number fields). -/
def jsNumberToString : Int → String
  | .ofNat n => natToStr n
  | .negSucc m => String.mk ('-' :: natDigitsAux (m + 2) (m + 1))

/-- Parse an optionally negative decimal numeral from a character list. -/
def parseIntDigits : List Char → Option Int
  | '-' :: rest => (parseNatDigits rest).map (fun n => -(n : Int))
  | cs => (parseNatDigits cs).map (fun n => (n : Int))

/-- Modelled from the spec: parsing a decimal (optionally negative) integer
string; `none` when the string is not a well-formed integer numeral. -/
def jsStringToIntOpt (s : String) : Option Int :=
  parseIntDigits s.data

/-- Modelled from the spec: `isNumberString` of `@st-lib/is` — whether a
string is a well-formed numeric string (restricted to the integer model of
JS numbers). -/
def jsIsNumberString (s : String) : Bool := (jsStringToIntOpt s).isSome

/-- Modelled from the spec: JS unary `+` / `Number(...)` on a string that
passed `jsIsNumberString`. -/
def jsStringToNumber (s : String) : Int := (jsStringToIntOpt s).getD 0

/-! ### Roundtrip facts for the decimal model -/

theorem natDigitsAux_all_digits :
    ∀ fuel n c, c ∈ natDigitsAux fuel n → c.isDigit = true := by
  intro fuel
  induction fuel with
  | zero => intro n c h; simp [natDigitsAux] at h
  | succ f ih =>
    intro n c h
    simp only [natDigitsAux] at h
    split at h
    · rename_i h10
      simp at h
      subst h
      have : ∀ m, m < 10 → (Nat.digitChar m).isDigit = true := by decide
      exact this n h10
    · rename_i h10
      rcases List.mem_append.1 h with h1 | h2
      · exact ih _ _ h1
      · simp at h2
        subst h2
        have : ∀ m, m < 10 → (Nat.digitChar m).isDigit = true := by decide
        exact this (n % 10) (Nat.mod_lt _ (by norm_num))

theorem parseDigitsAux_append (acc : Nat) (xs ys : List Char) :
    parseDigitsAux acc (xs ++ ys) =
      match parseDigitsAux acc xs with
      | some m => parseDigitsAux m ys
      | none => none := by
  induction xs generalizing acc with
  | nil => simp [parseDigitsAux]
  | cons c rest ih =>
    simp only [List.cons_append, parseDigitsAux]
    split
    · exact ih _
    · rfl

theorem parseDigitsAux_natDigitsAux :
    ∀ fuel n acc, n < fuel →
      ∃ e, parseDigitsAux acc (natDigitsAux fuel n) = some (acc * 10 ^ e + n)
        ∧ n < 10 ^ e := by
  intro fuel
  induction fuel with
  | zero => intro n acc h; omega
  | succ f ih =>
    intro n acc h
    simp only [natDigitsAux]
    split
    · rename_i h10
      refine ⟨1, ?_, by omega⟩
      have hd : (Nat.digitChar n).isDigit = true := by
        have : ∀ m, m < 10 → (Nat.digitChar m).isDigit = true := by decide
        exact this n h10
      have hv : (Nat.digitChar n).toNat - 48 = n := by
        have : ∀ m, m < 10 → (Nat.digitChar m).toNat - 48 = m := by decide
        exact this n h10
      simp [parseDigitsAux, hd, hv]
    · rename_i h10
      push_neg at h10
      have hdiv : n / 10 < f := by
        have h1 : n / 10 < n := Nat.div_lt_self (by omega) (by norm_num)
        omega
      obtain ⟨e, he, hlt⟩ := ih (n / 10) acc hdiv
      refine ⟨e + 1, ?_, ?_⟩
      · rw [parseDigitsAux_append, he]
        have hd : (Nat.digitChar (n % 10)).isDigit = true := by
          have : ∀ m, m < 10 → (Nat.digitChar m).isDigit = true := by decide
          exact this (n % 10) (Nat.mod_lt _ (by norm_num))
        have hv : (Nat.digitChar (n % 10)).toNat - 48 = n % 10 := by
          have : ∀ m, m < 10 → (Nat.digitChar m).toNat - 48 = m := by decide
          exact this (n % 10) (Nat.mod_lt _ (by norm_num))
        simp [parseDigitsAux, hd, hv]
        have hnm : 10 * (n / 10) + n % 10 = n := Nat.div_add_mod n 10
        have hpow : (10 : Nat) ^ (e + 1) = 10 ^ e * 10 := pow_succ 10 e
        nlinarith [hnm, hpow]
      · have : n < 10 ^ e * 10 := by
          have := Nat.div_add_mod n 10
          have hm : n % 10 < 10 := Nat.mod_lt _ (by norm_num)
          omega
        calc n < 10 ^ e * 10 := this
          _ = 10 ^ (e + 1) := (pow_succ 10 e).symm

theorem parseNatDigits_natDigitsAux (n : Nat) :
    parseNatDigits (natDigitsAux (n + 1) n) = some n := by
  have hne : natDigitsAux (n + 1) n ≠ [] := by
    simp only [natDigitsAux]
    split
    · simp
    · simp
  obtain ⟨e, he, _⟩ :=
    parseDigitsAux_natDigitsAux (n + 1) n 0 (Nat.lt_succ_self n)
  match hcs : natDigitsAux (n + 1) n with
  | [] => exact absurd hcs hne
  | c :: rest =>
    rw [hcs] at he
    simpa [parseNatDigits] using he

theorem natDigitsAux_head_not_minus (fuel n : Nat) (c : Char)
    (rest : List Char) (h : natDigitsAux fuel n = c :: rest) : c ≠ '-' := by
  have hc : c ∈ natDigitsAux fuel n := by rw [h]; exact List.mem_cons_self _ _
  have := natDigitsAux_all_digits fuel n c hc
  intro hEq
  subst hEq
  simp [Char.isDigit] at this

theorem parseIntDigits_not_minus (c : Char) (rest : List Char)
    (h : c ≠ '-') :
    parseIntDigits (c :: rest) = (parseNatDigits (c :: rest)).map
      (fun n => (n : Int)) := by
  unfold parseIntDigits
  split
  · rename_i heq
    injection heq with h1 _
    exact absurd h1 h
  · rfl

/-- Roundtrip: the modelled JS decimal printer and parser invert each
other, for every integer. -/
theorem jsStringToIntOpt_jsNumberToString (i : Int) :
    jsStringToIntOpt (jsNumberToString i) = some i := by
  match i with
  | .ofNat n =>
    show parseIntDigits (natDigitsAux (n + 1) n) = some (Int.ofNat n)
    match hcs : natDigitsAux (n + 1) n with
    | [] =>
      have := parseNatDigits_natDigitsAux n
      rw [hcs] at this
      simp [parseNatDigits] at this
    | c :: rest =>
      have hnm := natDigitsAux_head_not_minus (n + 1) n c rest hcs
      have hp := parseNatDigits_natDigitsAux n
      rw [hcs] at hp
      rw [parseIntDigits_not_minus c rest hnm, hp]
      rfl
  | .negSucc m =>
    show parseIntDigits ('-' :: natDigitsAux (m + 2) (m + 1)) = some (Int.negSucc m)
    have hp := parseNatDigits_natDigitsAux (m + 1)
    rw [show m + 1 + 1 = m + 2 from rfl] at hp
    unfold parseIntDigits
    split
    · rename_i rest heq
      injection heq with h1 h2
      rw [← h2, hp]
      simp [Int.negSucc_eq]
    · rename_i hno
      exact absurd rfl (hno (natDigitsAux (m + 2) (m + 1)))

/-! ## JavaScript values

The raw backing values the library reads and writes.  Arrays and objects
are represented structurally; an object value stands for a JS object whose
own enumerable string keys appear in insertion order (so duplicate keys
never arise from an actual JS object).  A `date` carries its validity flag
and millisecond timestamp; a `file` is collapsed to the observable data the
library touches (the structural member check of `isFile` always succeeds on
a real `File`). -/

mutual

inductive RawVal where
  | nullV
  | undefV
  | boolV (b : Bool)
  | num (n : Int)
  | str (s : String)
  | date (valid : Bool) (ms : Int)
  | file (name : String) (size : Nat)
  | arr (xs : RawList)
  | obj (es : RawObj)
  deriving DecidableEq, Repr

inductive RawList where
  | nil
  | cons (hd : RawVal) (tl : RawList)
  deriving DecidableEq, Repr

inductive RawObj where
  | nil
  | cons (k : String) (v : RawVal) (tl : RawObj)
  deriving DecidableEq, Repr

end

/-- Elements of a `RawList` as a Lean list (convenience only). -/
def RawList.toList : RawList → List RawVal
  | .nil => []
  | .cons h t => h :: t.toList

/-- Build a `RawList` from a Lean list (convenience only). -/
def RawList.ofList : List RawVal → RawList
  | [] => .nil
  | h :: t => .cons h (RawList.ofList t)

/-- Length of a `RawList`. -/
def RawList.length : RawList → Nat
  | .nil => 0
  | .cons _ t => 1 + t.length

/-- Modelled JS `isString` of `@st-lib/is`: `typeof it === 'string'`. -/
def isStringV : RawVal → Bool
  | .str _ => true
  | _ => false

/-- Modelled JS `isNumber` of `@st-lib/is`: `typeof it === 'number'`. -/
def isNumberV : RawVal → Bool
  | .num _ => true
  | _ => false

/-- Modelled JS `isDate` of `@st-lib/is`: a `Date` instance holding a valid
date (an invalid date, `new Date(NaN)`, is rejected — the library relies on
this to map unparseable date inputs to `null`). -/
def isDateV : RawVal → Bool
  | .date valid _ => valid
  | _ => false

/-- Embeds `isFile` (src/index.ts lines 92-103): the structural member
check, which holds exactly of the file-like values of the model. -/
def isFileV : RawVal → Bool
  | .file _ _ => true
  | _ => false

/-- Modelled JS `isNumberString` applied to an arbitrary value: it holds
only of strings that are well-formed numeric strings. -/
def isNumberStringV : RawVal → Bool
  | .str s => jsIsNumberString s
  | _ => false

/-- Modelled JS loose equality `null == it`: true exactly of `null` and
`undefined`. -/
def isNullish : RawVal → Bool
  | .nullV => true
  | .undefV => true
  | _ => false

/-- Modelled JS `typeof it === 'object' && null != it`: true of dates,
files, arrays and plain objects. -/
def isObjectTyped : RawVal → Bool
  | .date _ _ => true
  | .file _ _ => true
  | .arr _ => true
  | .obj _ => true
  | _ => false

/-- Modelled JS `Array.isArray`. -/
def isArrayV : RawVal → Bool
  | .arr _ => true
  | _ => false

/-- Modelled JS `String(value)` for the inputs the string coercion accepts
(strings, numbers, dates); other cases are never reached by the library
and are given a placeholder rendering. -/
def jsStringOf : RawVal → String
  | .str s => s
  | .num n => jsNumberToString n
  | .date _ ms => "Date " ++ jsNumberToString ms
  | _ => "object"

/-- Modelled JS unary `+` on the values reaching it in `date` (numbers and
numeric strings). -/
def jsToNumber : RawVal → Int
  | .num n => n
  | .str s => jsStringToNumber s
  | _ => 0

/-- Canonical-array-index test: `v[key]` on a JS array hits an element
exactly when `key` is the canonical decimal form of an index. -/
def canonicalIndex (key : String) : Option Nat :=
  match key.data with
  | [] => none
  | c :: rest =>
    if c = '0' ∧ rest ≠ [] then none
    else parseNatDigits (c :: rest)

/-- Lookup of `es[key]` on an object entry list: first match, else
`undefined`. -/
def objLookup : RawObj → String → RawVal
  | .nil, _ => .undefV
  | .cons k v t, key => if k = key then v else objLookup t key

/-- Element at an index, else `undefined`. -/
def rawListGet : RawList → Nat → RawVal
  | .nil, _ => .undefV
  | .cons h _, 0 => h
  | .cons _ t, n + 1 => rawListGet t n

/-- Embeds the property read `v[key]` performed by `createObjectField`
(src/index.ts line 136): object entry lookup, array index lookup for
canonical indices, `undefined` for every other value (reads on the
fallback fresh empty object or on a date/file object yield `undefined`). -/
def rawGetKey (value : RawVal) (key : String) : RawVal :=
  match value with
  | .obj es => objLookup es key
  | .arr xs =>
    match canonicalIndex key with
    | some i => rawListGet xs i
    | none => .undefV
  | _ => .undefV

/-- Embeds `Array.isArray(value) ? value : []` (src/index.ts line 150):
the backing element list of an array field. -/
def rawElems : RawVal → RawList
  | .arr xs => xs
  | _ => .nil

/-- Modelled JS `JSON.stringify` restricted to the scalar stored values
that reach the diagnostic messages; composite values get a placeholder. -/
def jsonStringify : RawVal → String
  | .nullV => "null"
  | .undefV => "undefined"
  | .boolV true => "true"
  | .boolV false => "false"
  | .num n => jsNumberToString n
  | .str s => "\"" ++ s ++ "\""
  | .date _ ms => "\"Date " ++ jsNumberToString ms ++ "\""
  | .file _ _ => "\x7b\x7d"
  | .arr _ => "[...]"
  | .obj _ => "\x7b...\x7d"

/-! ## Date model -/

/-- Modelled from the spec: `new Date(ms)` for a numeric timestamp — valid
exactly when the timestamp is within the JS date range (±8.64e15 ms). -/
def jsNewDateFromNumber (ms : Int) : RawVal :=
  if ms.natAbs ≤ 8640000000000000 then .date true ms else .date false 0

/-- Modelled from the spec: JS `new Date(string)` calendar parsing,
restricted to ISO `YYYY-MM-DD` day strings; every other string yields an
invalid date.  Only its success/failure and the produced value matter to
the theorems below — the `date` helper treats it as a black box. -/
def jsNewDateFromString (s : String) : RawVal :=
  match s.data with
  | [y1, y2, y3, y4, '-', m1, m2, '-', d1, d2] =>
    match parseDigitsAux 0 [y1, y2, y3, y4], parseDigitsAux 0 [m1, m2],
        parseDigitsAux 0 [d1, d2] with
    | some y, some m, some d =>
      if 1 ≤ m ∧ m ≤ 12 ∧ 1 ≤ d ∧ d ≤ 28 then
        .date true ((((y : Int) - 1970) * 365 + ((m : Int) - 1) * 30
          + ((d : Int) - 1)) * 86400000)
      else .date false 0
    | _, _, _ => .date false 0
  | _ => .date false 0

/-- Embeds `date` (src/index.ts lines 201-210): valid dates pass through;
numbers and numeric strings are millisecond timestamps; other strings go
through calendar parsing; an invalid result becomes `null`. -/
def dateCoerce (inp : RawVal) : RawVal :=
  if isDateV inp then inp
  else
    let o : RawVal :=
      if isNumberV inp || isNumberStringV inp then
        jsNewDateFromNumber (jsToNumber inp)
      else if isStringV inp then
        jsNewDateFromString (jsStringOf inp)
      else .nullV
    if isDateV o then o else .nullV

/-! ## Field trees -/

/-- Path component: object key or array index
(`path.concat(key)` / `path.concat(index)` in the source). -/
inductive Key where
  | prop (s : String)
  | idx (n : Nat)
  deriving DecidableEq, Repr

/-- Decimal rendering of one path component. -/
def keyToString : Key → String
  | .prop s => s
  | .idx n => natToStr n

/-- Embeds `field.path.join('.')` (used by the validation error messages):
components joined by a single dot. -/
def pathJoinDot : List Key → String
  | [] => ""
  | [k] => keyToString k
  | k :: rest => keyToString k ++ "." ++ pathJoinDot rest

/-- Scalar type tags a built scalar field can carry
(`field.type` in the source). -/
inductive ScalarTag where
  | string
  | number
  | boolean
  | date
  | file
  deriving DecidableEq, Repr

/-- Embeds the callable scalar field produced by `createScalarField`
(src/index.ts lines 105-125): the closure state is the captured `value`
together with the `type`/`path`/`required` properties.  The `setValue`
callback is not stored: invocations of it are reported explicitly by
`scalarFieldApply`. -/
structure ScalarFormField where
  type : ScalarTag
  path : List Key
  required : Bool
  value : RawVal
  deriving DecidableEq, Repr

/-- Embeds `createScalarField` (src/index.ts lines 105-125). -/
def createScalarField (type : ScalarTag) (path : List Key) (required : Bool)
    (value : RawVal) : ScalarFormField :=
  { type := type, path := path, required := required, value := value }

/-- Embeds a call of the scalar field function (src/index.ts lines
112-120): with arguments, `setValue(args[0])` runs and `args[0]` is
returned; without arguments the captured `value` is returned.  The result
pairs the return value with the list of arguments `setValue` was invoked
with, in order; the captured closure state is never written, so the field
itself is unchanged by either call. -/
def scalarFieldApply (f : ScalarFormField) : List RawVal → RawVal × List RawVal
  | [] => (f.value, [])
  | a :: _ => (a, [a])

mutual

inductive FormField where
  | scalar (f : ScalarFormField)
  | array (path : List Key) (v : RawList) (fields : FieldList)
  | object (entries : FieldObj)
  deriving DecidableEq, Repr

inductive FieldList where
  | nil
  | cons (hd : FormField) (tl : FieldList)
  deriving DecidableEq, Repr

inductive FieldObj where
  | nil
  | cons (k : String) (f : FormField) (tl : FieldObj)
  deriving DecidableEq, Repr

end

/-- Append of object-field entry lists. -/
def fieldObjAppend : FieldObj → FieldObj → FieldObj
  | .nil, ys => ys
  | .cons k f t, ys => .cons k f (fieldObjAppend t ys)

/-! ## Schema values

`createField` dispatches on an arbitrary JS value used as a schema; the
recognized vocabulary is the ten scalar tag strings, arrays, and object
mappings.  `SchemaVal` covers every JS value shape the dispatch
distinguishes. -/

mutual

inductive SchemaVal where
  | tag (s : String)
  | nullS
  | undefS
  | numS (n : Int)
  | boolS (b : Bool)
  | arr (elems : SchemaList)
  | obj (entries : SchemaObj)
  deriving DecidableEq, Repr

inductive SchemaList where
  | nil
  | cons (hd : SchemaVal) (tl : SchemaList)
  deriving DecidableEq, Repr

inductive SchemaObj where
  | nil
  | cons (k : String) (v : SchemaVal) (tl : SchemaObj)
  deriving DecidableEq, Repr

end

/-- Rendering of a schema value for the `unexpected field type` message
(template interpolation of the offending value). -/
def schemaDescr : SchemaVal → String
  | .tag s => s
  | .nullS => "null"
  | .undefS => "undefined"
  | .numS n => jsNumberToString n
  | .boolS true => "true"
  | .boolS false => "false"
  | .arr _ => "array"
  | .obj _ => "object"

/-- Embeds the scalar coercion of the `'string'` cases of `createField`
(src/index.ts line 221). -/
def coerceString (value : RawVal) : RawVal :=
  if isStringV value || isNumberV value || isDateV value then
    .str (jsStringOf value)
  else .nullV

/-- Embeds the scalar coercion of the `'number'` cases of `createField`
(src/index.ts line 224): numbers are stringified, strings are kept as the
buffer, anything else becomes `null`. -/
def coerceNumber (value : RawVal) : RawVal :=
  match value with
  | .num n => .str (jsNumberToString n)
  | .str s => .str s
  | _ => .nullV

/-- Embeds the scalar coercion of the `'boolean'` cases of `createField`
(src/index.ts line 227).  Boxed `Boolean` objects do not occur among the
modelled values, so only the primitive check appears. -/
def coerceBoolean (value : RawVal) : RawVal :=
  match value with
  | .boolV b => .boolV b
  | _ => .nullV

/-- Embeds the scalar coercion of the `'file'` cases of `createField`
(src/index.ts line 233). -/
def coerceFile (value : RawVal) : RawVal :=
  if isFileV value then value else .nullV

/-! ## Field-tree builder -/

/-- Embeds the element loop of `createArrayField` (src/index.ts line 160):
one sub-field per existing backing element, built by `build` at
`path.concat(index)`.  The per-element setters write back into the shared
backing array; only the built fields matter to extraction, so the loop
returns them. -/
def buildArrayElems (build : List Key → RawVal → Except String FormField)
    (path : List Key) : Nat → RawList → Except String FieldList
  | _, .nil => .ok .nil
  | i, .cons v rest => do
    let f ← build (path ++ [.idx i]) v
    let fs ← buildArrayElems build path (i + 1) rest
    .ok (.cons f fs)

mutual

/-- Embeds `createField` (src/index.ts lines 212-241): dispatch on the
schema value — the ten scalar tag strings (with their coercions and
required flags), arrays (via `createArrayField`, whose element schema is
the array's first entry — `undefined` for an empty schema array), object
mappings (via `createObjectField`), and the `unexpected field type` error
for everything else.  Exceptions are modelled by `Except`. -/
def createField : SchemaVal → List Key → RawVal → Except String FormField
  | .tag s, path, value =>
    if s = "string" ∨ s = "string?" then
      .ok (.scalar (createScalarField .string path (s == "string")
        (coerceString value)))
    else if s = "number" ∨ s = "number?" then
      .ok (.scalar (createScalarField .number path (s == "number")
        (coerceNumber value)))
    else if s = "boolean" ∨ s = "boolean?" then
      .ok (.scalar (createScalarField .boolean path (s == "boolean")
        (coerceBoolean value)))
    else if s = "date" ∨ s = "date?" then
      .ok (.scalar (createScalarField .date path (s == "date")
        (dateCoerce value)))
    else if s = "file" ∨ s = "file?" then
      .ok (.scalar (createScalarField .file path (s == "file")
        (coerceFile value)))
    else .error ("unexpected field type " ++ s)
  | .arr (.cons t _), path, value =>
    (buildArrayElems (createField t) path 0 (rawElems value)).map
      (fun fs => .array path (rawElems value) fs)
  | .arr .nil, path, value =>
    match rawElems value with
    | .nil => .ok (.array path .nil .nil)
    | .cons _ _ => .error "unexpected field type undefined"
  | .obj entries, path, value =>
    (createObjectFields entries path value).map (fun fs => .object fs)
  | t, _, _ => .error ("unexpected field type " ++ schemaDescr t)

/-- Embeds the key loop of `createObjectField` (src/index.ts lines
133-141): one sub-field per schema key, each built over the property read
`v[key]` at `path.concat(key)`. -/
def createObjectFields : SchemaObj → List Key → RawVal → Except String FieldObj
  | .nil, _, _ => .ok .nil
  | .cons k sub rest, path, value => do
    let f ← createField sub (path ++ [.prop k]) (rawGetKey value k)
    let fs ← createObjectFields rest path value
    .ok (.cons k f fs)

end

/-- Embeds `createForm` (src/index.ts lines 246-255): the form factory
builds the root object field tree over the initial data at the empty
path. -/
def createForm (scheme : SchemaObj) (data : RawVal) : Except String FieldObj :=
  createObjectFields scheme [] data

/-! ## Data extractor -/

/-- Validation error message raised by the extraction helpers:
`field $path.join('.') is required; got $JSON.stringify(val)`. -/
def requiredMsg (path : List Key) (val : RawVal) : String :=
  "field " ++ pathJoinDot path ++ " is required; got " ++ jsonStringify val

/-- Embeds `getNumberFieldData` (src/index.ts lines 257-265). -/
def getNumberFieldData (f : ScalarFormField) : Except String RawVal :=
  let val := (scalarFieldApply f []).1
  if isNumberStringV val then .ok (.num (jsToNumber val))
  else if f.required then .error (requiredMsg f.path val)
  else .ok .nullV

/-- Embeds `getStringFieldData` (src/index.ts lines 266-272). -/
def getStringFieldData (f : ScalarFormField) : Except String RawVal :=
  let val := (scalarFieldApply f []).1
  if isNullish val && f.required then .error (requiredMsg f.path val)
  else .ok val

/-- Embeds `getBooleanFieldData` (src/index.ts lines 273-279). -/
def getBooleanFieldData (f : ScalarFormField) : Except String RawVal :=
  let val := (scalarFieldApply f []).1
  if isNullish val && f.required then .error (requiredMsg f.path val)
  else .ok val

/-- Embeds `getFileFieldData` (src/index.ts lines 280-288). -/
def getFileFieldData (f : ScalarFormField) : Except String RawVal :=
  let val := (scalarFieldApply f []).1
  if isFileV val then .ok val
  else if f.required then .error (requiredMsg f.path val)
  else .ok .nullV

/-- Embeds `getDateFieldData` (src/index.ts lines 289-297). -/
def getDateFieldData (f : ScalarFormField) : Except String RawVal :=
  let val := (scalarFieldApply f []).1
  if isDateV val then .ok val
  else if f.required then .error (requiredMsg f.path val)
  else .ok .nullV

mutual

/-- Embeds `getFieldData` (src/index.ts lines 302-316): dispatch on the
field shape and scalar type tag. -/
def getFieldData : FormField → Except String RawVal
  | .scalar f =>
    match f.type with
    | .number => getNumberFieldData f
    | .string => getStringFieldData f
    | .boolean => getBooleanFieldData f
    | .date => getDateFieldData f
    | .file => getFileFieldData f
  | .array _ _ fields => (getArrayFieldData fields).map (fun xs => .arr xs)
  | .object entries => (getObjectFieldData entries).map (fun es => .obj es)

/-- Embeds `getArrayFieldData` (src/index.ts lines 298-300):
`field.map(getFieldData)` over the built sub-fields. -/
def getArrayFieldData : FieldList → Except String RawList
  | .nil => .ok .nil
  | .cons f rest => do
    let v ← getFieldData f
    let vs ← getArrayFieldData rest
    .ok (.cons v vs)

/-- Embeds `getObjectFieldData` (src/index.ts lines 318-324): one
extracted entry per sub-field, in key order. -/
def getObjectFieldData : FieldObj → Except String RawObj
  | .nil => .ok .nil
  | .cons k f rest => do
    let v ← getFieldData f
    let vs ← getObjectFieldData rest
    .ok (.cons k v vs)

end

/-- Embeds `getFormData` (src/index.ts lines 326-328). -/
def getFormData (fields : FieldObj) : Except String RawObj :=
  getObjectFieldData fields

/-- Computation rule of the `Except` monad: bind on a success. -/
@[simp] theorem exceptBindOk {α β ε : Type} (a : α) (f : α → Except ε β) :
    (Except.ok a >>= f) = f a := rfl

/-- Computation rule of the `Except` monad: bind on an error
(the first raised error aborts the rest of the computation). -/
@[simp] theorem exceptBindError {α β ε : Type} (e : ε)
    (f : α → Except ε β) :
    ((Except.error e : Except ε α) >>= f) = Except.error e := rfl

/-- Computation rule of the `Except` functor: map on a success. -/
@[simp] theorem exceptMapOk {α β ε : Type} (a : α) (f : α → β) :
    (Except.ok a : Except ε α).map f = Except.ok (f a) := rfl

/-- Computation rule of the `Except` functor: map on an error. -/
@[simp] theorem exceptMapError {α β ε : Type} (e : ε) (f : α → β) :
    (Except.error e : Except ε α).map f = Except.error e := rfl

/-! ## Well-formed schemas and matching backing values -/

/-- Conjunction of a predicate over a raw value list. -/
def allRawList (p : RawVal → Bool) : RawList → Bool
  | .nil => true
  | .cons h t => p h && allRawList p t

/-- Whether an object entry list carries a key. -/
def rawObjHasKey : RawObj → String → Bool
  | .nil, _ => false
  | .cons k _ t, key => k == key || rawObjHasKey t key

/-- Whether the keys of an object entry list are pairwise distinct (always
true of a list that denotes an actual JS object). -/
def rawObjKeysNodup : RawObj → Bool
  | .nil => true
  | .cons k _ t => !rawObjHasKey t k && rawObjKeysNodup t

/-- Append of object entry lists. -/
def rawObjAppend : RawObj → RawObj → RawObj
  | .nil, ys => ys
  | .cons k v t, ys => .cons k v (rawObjAppend t ys)

/-- Sub-schemas of an object schema, as a Lean list. -/
def schemaObjSub : SchemaObj → List SchemaVal
  | .nil => []
  | .cons _ v t => v :: schemaObjSub t

mutual

/-- Well-formed schema in the sense of the spec: built only from the ten
recognized scalar tags, single-element arrays, and object mappings. -/
def wellFormedSchema : SchemaVal → Bool
  | .tag s =>
    s == "string" || s == "string?" || s == "number" || s == "number?" ||
    s == "boolean" || s == "boolean?" || s == "date" || s == "date?" ||
    s == "file" || s == "file?"
  | .arr (.cons t .nil) => wellFormedSchema t
  | .arr _ => false
  | .obj entries => wellFormedObjSchema entries
  | _ => false

/-- Well-formed object schema: every sub-schema well-formed. -/
def wellFormedObjSchema : SchemaObj → Bool
  | .nil => true
  | .cons _ sub rest => wellFormedSchema sub && wellFormedObjSchema rest

end

mutual

/-- Fully-populated, well-typed backing value for a schema: scalar leaves
hold a value of the declared primitive type (numbers as actual numbers,
dates valid, nothing null or undefined, also under nullable tags), arrays
hold elementwise well-typed arrays, objects hold exactly the schema's keys
in schema order with pairwise-distinct keys. -/
def wellTypedVal : SchemaVal → RawVal → Bool
  | .tag s, v =>
    if s == "string" || s == "string?" then isStringV v
    else if s == "number" || s == "number?" then isNumberV v
    else if s == "boolean" || s == "boolean?" then
      match v with
      | .boolV _ => true
      | _ => false
    else if s == "date" || s == "date?" then isDateV v
    else if s == "file" || s == "file?" then isFileV v
    else false
  | .arr (.cons t _), v =>
    match v with
    | .arr xs => allRawList (wellTypedVal t) xs
    | _ => false
  | .obj entries, v =>
    match v with
    | .obj es => rawObjKeysNodup es && wellTypedObjVal entries es
    | _ => false
  | _, _ => false

/-- Positional alignment of an object backing with an object schema. -/
def wellTypedObjVal : SchemaObj → RawObj → Bool
  | .nil, .nil => true
  | .cons k sub srest, .cons k2 v vrest =>
    k == k2 && wellTypedVal sub v && wellTypedObjVal srest vrest
  | _, _ => false

end

/-! ## Array field closure state (createArrayField)

`createArrayField` (src/index.ts lines 144-199) captures the backing array
`const v = Array.isArray(value) ? value : []` and mutates it in place; its
helpers then invoke the field itself with `v` (hence `setValue` with `v`)
and return what the underlying sequence mutation returned.  The closure
state is the contents of `v`; every operation returns its JS return value,
the updated closure state, and the list of arguments `setValue` was
invoked with, in order. -/

/-- Closure state of an array field: its `path` property and the captured
backing array `v`. -/
structure ArrayFieldState where
  path : List Key
  v : RawList
  deriving DecidableEq, Repr

/-- Embeds the capture `const v = Array.isArray(value) ? value : []`
(src/index.ts line 150). -/
def mkArrayFieldState (path : List Key) (value : RawVal) : ArrayFieldState :=
  { path := path, v := rawElems value }

/-- Embeds a call of the array field function (src/index.ts lines
151-159): with arguments, `setValue(args[0])` runs and `args[0]` is
returned — the captured backing array `v` is NOT reassigned; without
arguments the captured `v` is returned.  Results pair the return value
with the updated closure state and the `setValue` invocation list. -/
def arrayFieldApply (s : ArrayFieldState) :
    List RawVal → RawVal × ArrayFieldState × List RawVal
  | [] => (.arr s.v, s, [])
  | a :: _ => (a, s, [a])

/-- Modelled JS `Array.prototype.push`: appends the items, returns the new
length. -/
def jsArrayPush (xs : RawList) (items : List RawVal) : Nat × RawList :=
  match items with
  | [] => (xs.length, xs)
  | i :: rest =>
    match xs with
    | .nil => jsArrayPush (.cons i .nil) rest
    | .cons h t =>
      let (n, t2) := jsArrayPush t (i :: rest)
      (1 + n, .cons h t2)

/-- Modelled JS `Array.prototype.pop`: removes and returns the last
element, or returns `undefined` on an empty array. -/
def jsArrayPop : RawList → RawVal × RawList
  | .nil => (.undefV, .nil)
  | .cons h .nil => (h, .nil)
  | .cons h (.cons h2 t) =>
    let (o, rest) := jsArrayPop (.cons h2 t)
    (o, .cons h rest)

/-- Modelled JS `Array.prototype.shift`: removes and returns the first
element, or returns `undefined` on an empty array. -/
def jsArrayShift : RawList → RawVal × RawList
  | .nil => (.undefV, .nil)
  | .cons h t => (h, t)

/-- Modelled JS `Array.prototype.unshift`: prepends the items, returns the
new length. -/
def jsArrayUnshift (xs : RawList) (items : List RawVal) : Nat × RawList :=
  match items with
  | [] => (xs.length, xs)
  | i :: rest =>
    let (n, ys) := jsArrayUnshift xs rest
    (1 + n, .cons i ys)

/-- Take the first `n` elements of a raw list. -/
def rawListTake : Nat → RawList → RawList
  | 0, _ => .nil
  | _, .nil => .nil
  | n + 1, .cons h t => .cons h (rawListTake n t)

/-- Drop the first `n` elements of a raw list. -/
def rawListDrop : Nat → RawList → RawList
  | 0, xs => xs
  | _, .nil => .nil
  | n + 1, .cons _ t => rawListDrop n t

/-- Append of raw lists. -/
def rawListAppend : RawList → RawList → RawList
  | .nil, ys => ys
  | .cons h t, ys => .cons h (rawListAppend t ys)

/-- Modelled JS `Array.prototype.splice(start, deleteCount, ...items)`
with both numeric arguments present: clamps `start` into the array,
clamps `deleteCount` at the remaining length, removes that slice,
inserts the items in its place, and returns the removed elements. -/
def jsArraySplice (xs : RawList) (start : Int) (deleteCount : Int)
    (items : List RawVal) : RawList × RawList :=
  let len : Int := (xs.length : Int)
  let actualStart : Nat :=
    if start < 0 then (max (len + start) 0).toNat
    else (min start len).toNat
  let actualDelete : Nat :=
    (min (max deleteCount 0) (len - (actualStart : Int))).toNat
  let removed := rawListTake actualDelete (rawListDrop actualStart xs)
  let kept := rawListAppend (rawListTake actualStart xs)
    (rawListAppend (RawList.ofList items)
      (rawListDrop (actualStart + actualDelete) xs))
  (removed, kept)

/-- Embeds `field.push` (src/index.ts lines 176-180): in-place
`v.push(...items)`, then `field(v)` (which invokes `setValue` with the
mutated backing array), then the new length is returned. -/
def arrayFieldPush (s : ArrayFieldState) (items : List RawVal) :
    Nat × ArrayFieldState × List RawVal :=
  let (o, v2) := jsArrayPush s.v items
  let s2 : ArrayFieldState := { path := s.path, v := v2 }
  let (_, s3, calls) := arrayFieldApply s2 [.arr v2]
  (o, s3, calls)

/-- Embeds `field.pop` (src/index.ts lines 186-190). -/
def arrayFieldPop (s : ArrayFieldState) :
    RawVal × ArrayFieldState × List RawVal :=
  let (o, v2) := jsArrayPop s.v
  let s2 : ArrayFieldState := { path := s.path, v := v2 }
  let (_, s3, calls) := arrayFieldApply s2 [.arr v2]
  (o, s3, calls)

/-- Embeds `field.shift` (src/index.ts lines 191-195). -/
def arrayFieldShift (s : ArrayFieldState) :
    RawVal × ArrayFieldState × List RawVal :=
  let (o, v2) := jsArrayShift s.v
  let s2 : ArrayFieldState := { path := s.path, v := v2 }
  let (_, s3, calls) := arrayFieldApply s2 [.arr v2]
  (o, s3, calls)

/-- Embeds `field.unshift` (src/index.ts lines 181-185). -/
def arrayFieldUnshift (s : ArrayFieldState) (items : List RawVal) :
    Nat × ArrayFieldState × List RawVal :=
  let (o, v2) := jsArrayUnshift s.v items
  let s2 : ArrayFieldState := { path := s.path, v := v2 }
  let (_, s3, calls) := arrayFieldApply s2 [.arr v2]
  (o, s3, calls)

/-- Embeds `field.splice` (src/index.ts lines 171-175): note the declared
default `deleteCount: number = 0` — an omitted count is passed to the
underlying `Array.prototype.splice` as `0`, not forwarded as "absent". -/
def arrayFieldSplice (s : ArrayFieldState) (start : Int)
    (deleteCount : Option Int) (items : List RawVal) :
    RawList × ArrayFieldState × List RawVal :=
  let dc : Int := deleteCount.getD 0
  let (o, v2) := jsArraySplice s.v start dc items
  let s2 : ArrayFieldState := { path := s.path, v := v2 }
  let (_, s3, calls) := arrayFieldApply s2 [.arr v2]
  (o, s3, calls)

/-- Modelled standard JS `splice` semantics with the count argument
omitted (what `Array.prototype.splice(start)` itself does, and what the
package README documents the helper to be equal to): removes and returns
everything from `start` to the end. -/
def jsArraySpliceNoCount (xs : RawList) (start : Int) :
    RawList × RawList :=
  let len : Int := (xs.length : Int)
  let actualStart : Nat :=
    if start < 0 then (max (len + start) 0).toNat
    else (min start len).toNat
  (rawListDrop actualStart xs, rawListTake actualStart xs)

/-! ## Object field backing (createObjectField) with explicit references

`createObjectField` (src/index.ts lines 127-142) picks its backing object
`const v = typeof value === 'object' && null != value ? value : ...` (line 134, with an empty object literal as the fallback):
when the raw value is object-typed, `v` IS that object (the same
reference, no copy); otherwise a fresh empty object is allocated.  Each
sub-field's setter then executes `v[key] = value; setValue(v)`.  To talk
about object identity, this fragment is embedded over an explicit heap:
object-typed values are references into a store of entry lists, and
allocation appends a new empty object. -/

/-- Heap value: a primitive (by-value) JS value, or a reference to a heap
object. -/
inductive HVal where
  | prim (v : RawVal)
  | ref (r : Nat)
  deriving DecidableEq, Repr

/-- Store of objects: the object behind reference `r` is the entry list at
index `r`. -/
abbrev Heap : Type := List (List (String × HVal))

/-- Entries of the object behind a reference (empty for a dangling one). -/
def heapGet (h : Heap) (r : Nat) : List (String × HVal) :=
  (List.getD h r [])

/-- Replace or append a key in an entry list (the JS property write
`o[key] = value`). -/
def entriesSetKey (es : List (String × HVal)) (key : String) (w : HVal) :
    List (String × HVal) :=
  match es with
  | [] => [(key, w)]
  | (k, v) :: rest =>
    if k = key then (k, w) :: rest
    else (k, v) :: entriesSetKey rest key w

/-- Write `key` into the object behind `r`. -/
def heapSetKey (h : Heap) (r : Nat) (key : String) (w : HVal) : Heap :=
  List.set h r (entriesSetKey (heapGet h r) key w)

/-- Embeds the backing-object choice of `createObjectField` (src/index.ts
line 134): an object-typed raw value (a reference) is used as the backing
object itself; any other value makes the field allocate a fresh empty
object. -/
def createObjectFieldBacking (value : HVal) (h : Heap) : Nat × Heap :=
  match value with
  | .ref r => (r, h)
  | .prim _ => (h.length, h ++ [[]])

/-- Embeds the per-key setter closure `(value) => v[key] = value;
setValue(v)` (a block body in the source) wired by `createObjectField` (src/index.ts lines
136-139): writes the key into the backing object behind `backing` and
invokes the object's own `setValue` with (a reference to) that backing
object.  Returns the updated heap and the `setValue` invocation list. -/
def objectFieldChildSet (backing : Nat) (key : String) (newValue : HVal)
    (h : Heap) : Heap × List HVal :=
  (heapSetKey h backing key newValue, [.ref backing])

/-! ## Induction principles for the entry/element list types -/

/-- Structural induction over raw value lists (single motive). -/
theorem rawListInduct (motive : RawList → Prop) (nil : motive .nil)
    (cons : ∀ h t, motive t → motive (.cons h t)) : ∀ xs, motive xs
  | .nil => nil
  | .cons h t => cons h t (rawListInduct motive nil cons t)

/-- Structural induction over raw object entry lists (single motive). -/
theorem rawObjInduct (motive : RawObj → Prop) (nil : motive .nil)
    (cons : ∀ k v t, motive t → motive (.cons k v t)) : ∀ es, motive es
  | .nil => nil
  | .cons k v t => cons k v t (rawObjInduct motive nil cons t)

/-- Structural induction over schema entry lists (single motive). -/
theorem schemaObjInduct (motive : SchemaObj → Prop) (nil : motive .nil)
    (cons : ∀ k v t, motive t → motive (.cons k v t)) : ∀ es, motive es
  | .nil => nil
  | .cons k v t => cons k v t (schemaObjInduct motive nil cons t)

/-- Structural induction over built field lists (single motive). -/
theorem fieldListInduct (motive : FieldList → Prop) (nil : motive .nil)
    (cons : ∀ f t, motive t → motive (.cons f t)) : ∀ fs, motive fs
  | .nil => nil
  | .cons f t => cons f t (fieldListInduct motive nil cons t)

/-- Structural induction over built object field entry lists
(single motive). -/
theorem fieldObjInduct (motive : FieldObj → Prop) (nil : motive .nil)
    (cons : ∀ k f t, motive t → motive (.cons k f t)) : ∀ fs, motive fs
  | .nil => nil
  | .cons k f t => cons k f t (fieldObjInduct motive nil cons t)

/-! ## Computation lemmas for the scalar cases of createField -/

theorem createField_string (path : List Key) (v : RawVal) :
    createField (.tag "string") path v =
      .ok (.scalar (createScalarField .string path true (coerceString v))) := by
  simp [createField]

theorem createField_stringOpt (path : List Key) (v : RawVal) :
    createField (.tag "string?") path v =
      .ok (.scalar (createScalarField .string path false (coerceString v))) := by
  simp [createField]

theorem createField_number (path : List Key) (v : RawVal) :
    createField (.tag "number") path v =
      .ok (.scalar (createScalarField .number path true (coerceNumber v))) := by
  simp [createField]

theorem createField_numberOpt (path : List Key) (v : RawVal) :
    createField (.tag "number?") path v =
      .ok (.scalar (createScalarField .number path false (coerceNumber v))) := by
  simp [createField]

theorem createField_boolean (path : List Key) (v : RawVal) :
    createField (.tag "boolean") path v =
      .ok (.scalar (createScalarField .boolean path true (coerceBoolean v))) := by
  simp [createField]

theorem createField_booleanOpt (path : List Key) (v : RawVal) :
    createField (.tag "boolean?") path v =
      .ok (.scalar (createScalarField .boolean path false
        (coerceBoolean v))) := by
  simp [createField]

theorem createField_date (path : List Key) (v : RawVal) :
    createField (.tag "date") path v =
      .ok (.scalar (createScalarField .date path true (dateCoerce v))) := by
  simp [createField]

theorem createField_dateOpt (path : List Key) (v : RawVal) :
    createField (.tag "date?") path v =
      .ok (.scalar (createScalarField .date path false (dateCoerce v))) := by
  simp [createField]

theorem createField_file (path : List Key) (v : RawVal) :
    createField (.tag "file") path v =
      .ok (.scalar (createScalarField .file path true (coerceFile v))) := by
  simp [createField]

theorem createField_fileOpt (path : List Key) (v : RawVal) :
    createField (.tag "file?") path v =
      .ok (.scalar (createScalarField .file path false (coerceFile v))) := by
  simp [createField]

/-! ## Object entry list lemmas -/

theorem rawObjHasKey_append (xs ys : RawObj) (k : String) :
    rawObjHasKey (rawObjAppend xs ys) k =
      (rawObjHasKey xs k || rawObjHasKey ys k) := by
  induction xs using rawObjInduct with
  | nil => simp [rawObjAppend, rawObjHasKey]
  | cons k0 v0 t ih => simp [rawObjAppend, rawObjHasKey, ih, Bool.or_assoc]

theorem rawObjAppend_cons (pre : RawObj) (k : String) (v : RawVal)
    (rest : RawObj) :
    rawObjAppend pre (.cons k v rest) =
      rawObjAppend (rawObjAppend pre (.cons k v .nil)) rest := by
  induction pre using rawObjInduct with
  | nil => simp [rawObjAppend]
  | cons k0 v0 t ih => simp [rawObjAppend, ih]

theorem objLookup_append_skip (pre es : RawObj) (k : String)
    (h : rawObjHasKey pre k = false) :
    objLookup (rawObjAppend pre es) k = objLookup es k := by
  induction pre using rawObjInduct with
  | nil => simp [rawObjAppend]
  | cons k0 v0 t ih =>
    simp only [rawObjHasKey, Bool.or_eq_false_iff] at h
    simp only [rawObjAppend, objLookup]
    rw [if_neg (by simpa using h.1), ih h.2]

theorem nodup_append_head_not_in_pre (pre : RawObj) (k : String)
    (v : RawVal) (rest : RawObj)
    (h : rawObjKeysNodup (rawObjAppend pre (.cons k v rest)) = true) :
    rawObjHasKey pre k = false := by
  induction pre using rawObjInduct with
  | nil => simp [rawObjHasKey]
  | cons k0 v0 t ih =>
    simp only [rawObjAppend, rawObjKeysNodup, Bool.and_eq_true,
      Bool.not_eq_true'] at h
    obtain ⟨h1, h2⟩ := h
    rw [rawObjHasKey_append] at h1
    simp only [rawObjHasKey, Bool.or_eq_false_iff] at h1
    simp only [rawObjHasKey, Bool.or_eq_false_iff]
    refine ⟨?_, ih h2⟩
    have := h1.2.1
    simp only [beq_eq_false_iff_ne, ne_eq] at this ⊢
    exact fun hkk => this hkk.symm

theorem schemaObjSub_sizeOf (entries : SchemaObj) (sub : SchemaVal)
    (h : sub ∈ schemaObjSub entries) : sizeOf sub < sizeOf entries := by
  induction entries using schemaObjInduct with
  | nil => simp [schemaObjSub] at h
  | cons k v t ih =>
    simp only [schemaObjSub, List.mem_cons] at h
    rcases h with rfl | h
    · simp only [SchemaObj.cons.sizeOf_spec]
      omega
    · have := ih h
      simp only [SchemaObj.cons.sizeOf_spec]
      omega

theorem wellFormedObjSchema_sub (entries : SchemaObj)
    (h : wellFormedObjSchema entries = true) :
    ∀ sub ∈ schemaObjSub entries, wellFormedSchema sub = true := by
  induction entries using schemaObjInduct with
  | nil => simp [schemaObjSub]
  | cons k v t ih =>
    simp only [wellFormedObjSchema, Bool.and_eq_true] at h
    simp only [schemaObjSub, List.mem_cons]
    rintro sub (rfl | hm)
    · exact h.1
    · exact ih h.2 sub hm

/-! ## Builder totality on well-formed schemas -/

theorem buildArrayElems_ok
    (build : List Key → RawVal → Except String FormField)
    (hb : ∀ path v, ∃ f, build path v = .ok f) :
    ∀ xs i path, ∃ fs, buildArrayElems build path i xs = .ok fs := by
  intro xs
  induction xs using rawListInduct with
  | nil => intro i path; exact ⟨.nil, rfl⟩
  | cons h t ih =>
    intro i path
    obtain ⟨f, hf⟩ := hb (path ++ [.idx i]) h
    obtain ⟨fs, hfs⟩ := ih (i + 1) path
    exact ⟨.cons f fs, by simp [buildArrayElems, hf, hfs]⟩

theorem createObjectFields_ok (entries : SchemaObj)
    (hrt : ∀ sub ∈ schemaObjSub entries, ∀ path v,
      ∃ f, createField sub path v = .ok f) :
    ∀ path value, ∃ fs, createObjectFields entries path value = .ok fs := by
  induction entries using schemaObjInduct with
  | nil => intro path value; exact ⟨.nil, rfl⟩
  | cons k sub t ih =>
    intro path value
    obtain ⟨f, hf⟩ := hrt sub (List.mem_cons_self sub _) (path ++ [.prop k])
      (rawGetKey value k)
    obtain ⟨fs, hfs⟩ := ih
      (fun s hs => hrt s (List.mem_cons_of_mem sub hs)) path value
    exact ⟨.cons k f fs, by simp [createObjectFields, hf, hfs]⟩

/-- Totality of the field-tree builder on well-formed schemas: the core of
the never-raises property, by strong induction on the schema size. -/
theorem createField_wf_ok :
    ∀ n (sch : SchemaVal), sizeOf sch ≤ n → wellFormedSchema sch = true →
      ∀ path v, ∃ f, createField sch path v = .ok f := by
  intro n
  induction n using Nat.strong_induction_on with
  | _ n ih =>
    intro sch hsz hwf path v
    match sch with
    | .tag s =>
      simp only [wellFormedSchema, Bool.or_eq_true, beq_iff_eq] at hwf
      rcases hwf with
        (((((((((rfl | rfl) | rfl) | rfl) | rfl) | rfl) | rfl) | rfl) |
          rfl) | rfl)
      · exact ⟨_, createField_string path v⟩
      · exact ⟨_, createField_stringOpt path v⟩
      · exact ⟨_, createField_number path v⟩
      · exact ⟨_, createField_numberOpt path v⟩
      · exact ⟨_, createField_boolean path v⟩
      · exact ⟨_, createField_booleanOpt path v⟩
      · exact ⟨_, createField_date path v⟩
      · exact ⟨_, createField_dateOpt path v⟩
      · exact ⟨_, createField_file path v⟩
      · exact ⟨_, createField_fileOpt path v⟩
    | .arr .nil => simp [wellFormedSchema] at hwf
    | .arr (.cons t .nil) =>
      simp only [wellFormedSchema] at hwf
      have hszt : sizeOf t < n := by
        have h1 : sizeOf t < sizeOf (SchemaVal.arr (.cons t .nil)) := by
          simp only [SchemaVal.arr.sizeOf_spec, SchemaList.cons.sizeOf_spec]
          omega
        omega
      have hb : ∀ path v, ∃ f, createField t path v = .ok f :=
        fun path v => ih (sizeOf t) hszt t le_rfl hwf path v
      obtain ⟨fs, hfs⟩ := buildArrayElems_ok (createField t) hb
        (rawElems v) 0 path
      exact ⟨.array path (rawElems v) fs, by simp [createField, hfs]⟩
    | .arr (.cons t (.cons u rest)) => simp [wellFormedSchema] at hwf
    | .obj entries =>
      simp only [wellFormedSchema] at hwf
      have hrt : ∀ sub ∈ schemaObjSub entries, ∀ path v,
          ∃ f, createField sub path v = .ok f := by
        intro sub hm path v
        have h1 : sizeOf sub < n := by
          have h2 := schemaObjSub_sizeOf entries sub hm
          have h3 : sizeOf entries < sizeOf (SchemaVal.obj entries) := by
            simp only [SchemaVal.obj.sizeOf_spec]
            omega
          omega
        exact ih (sizeOf sub) h1 sub le_rfl
          (wellFormedObjSchema_sub entries hwf sub hm) path v
      obtain ⟨fs, hfs⟩ := createObjectFields_ok entries hrt path v
      exact ⟨.object fs, by simp [createField, hfs]⟩
    | .nullS => simp [wellFormedSchema] at hwf
    | .undefS => simp [wellFormedSchema] at hwf
    | .numS m => simp [wellFormedSchema] at hwf
    | .boolS b => simp [wellFormedSchema] at hwf

/-! ## Build/extract roundtrip on fully-populated well-typed values -/

theorem buildArrayElems_rt
    (build : List Key → RawVal → Except String FormField)
    (P : RawVal → Bool)
    (hb : ∀ path v, P v = true →
      ∃ f, build path v = .ok f ∧ getFieldData f = .ok v) :
    ∀ xs i path, allRawList P xs = true →
      ∃ fs, buildArrayElems build path i xs = .ok fs ∧
        getArrayFieldData fs = .ok xs := by
  intro xs
  induction xs using rawListInduct with
  | nil => intro i path _; exact ⟨.nil, rfl, rfl⟩
  | cons h t ih =>
    intro i path hall
    simp only [allRawList, Bool.and_eq_true] at hall
    obtain ⟨f, hf, hfe⟩ := hb (path ++ [.idx i]) h hall.1
    obtain ⟨fs, hfs, hfse⟩ := ih (i + 1) path hall.2
    refine ⟨.cons f fs, ?_, ?_⟩
    · simp [buildArrayElems, hf, hfs]
    · simp [getArrayFieldData, hfe, hfse]

theorem createObjectFields_rt (entries : SchemaObj)
    (hrt : ∀ sub ∈ schemaObjSub entries, ∀ path v,
      wellTypedVal sub v = true →
      ∃ f, createField sub path v = .ok f ∧ getFieldData f = .ok v) :
    ∀ es pre esAll path, esAll = rawObjAppend pre es →
      rawObjKeysNodup esAll = true →
      wellTypedObjVal entries es = true →
      ∃ fs, createObjectFields entries path (.obj esAll) = .ok fs ∧
        getObjectFieldData fs = .ok es := by
  induction entries using schemaObjInduct with
  | nil =>
    intro es pre esAll path hall hnd hwt
    match es with
    | .nil => exact ⟨.nil, rfl, rfl⟩
    | .cons k2 v2 vrest => simp [wellTypedObjVal] at hwt
  | cons k sub t ih =>
    intro es pre esAll path hall hnd hwt
    match es with
    | .nil => simp [wellTypedObjVal] at hwt
    | .cons k2 v2 vrest =>
      simp only [wellTypedObjVal, Bool.and_eq_true, beq_iff_eq] at hwt
      obtain ⟨⟨rfl, hv2⟩, hrest⟩ := hwt
      have hpre : rawObjHasKey pre k = false := by
        rw [hall] at hnd
        exact nodup_append_head_not_in_pre pre k v2 vrest hnd
      have hlook : rawGetKey (.obj esAll) k = v2 := by
        simp only [rawGetKey, hall]
        rw [objLookup_append_skip pre _ k hpre]
        simp [objLookup]
      obtain ⟨f, hok, hext⟩ := hrt sub (List.mem_cons_self sub _)
        (path ++ [.prop k]) v2 hv2
      obtain ⟨fs, hoks, hexts⟩ := ih
        (fun s hs => hrt s (List.mem_cons_of_mem sub hs))
        vrest (rawObjAppend pre (.cons k v2 .nil)) esAll path
        (by rw [hall]; exact rawObjAppend_cons pre k v2 vrest) hnd hrest
      refine ⟨.cons k f fs, ?_, ?_⟩
      · simp [createObjectFields, hlook, hok, hoks]
      · simp [getObjectFieldData, hext, hexts]

/-- Roundtrip of build followed by extract on a fully-populated
well-typed backing value: the extracted data equals the backing value, by
strong induction on the schema size. -/
theorem createField_wt_roundtrip :
    ∀ n (sch : SchemaVal), sizeOf sch ≤ n → wellFormedSchema sch = true →
      ∀ path v, wellTypedVal sch v = true →
      ∃ f, createField sch path v = .ok f ∧ getFieldData f = .ok v := by
  intro n
  induction n using Nat.strong_induction_on with
  | _ n ih =>
    intro sch hsz hwf path v hwt
    match sch with
    | .tag s =>
      simp only [wellFormedSchema, Bool.or_eq_true, beq_iff_eq] at hwf
      rcases hwf with
        (((((((((rfl | rfl) | rfl) | rfl) | rfl) | rfl) | rfl) | rfl) |
          rfl) | rfl)
      · simp only [wellTypedVal] at hwt
        norm_num at hwt
        match v, hwt with
        | .str s0, _ =>
          refine ⟨_, createField_string path _, ?_⟩
          simp [getFieldData, getStringFieldData, createScalarField,
            scalarFieldApply, coerceString, isStringV, isNumberV, isDateV,
            jsStringOf, isNullish]
      · simp only [wellTypedVal] at hwt
        norm_num at hwt
        match v, hwt with
        | .str s0, _ =>
          refine ⟨_, createField_stringOpt path _, ?_⟩
          simp [getFieldData, getStringFieldData, createScalarField,
            scalarFieldApply, coerceString, isStringV, isNumberV, isDateV,
            jsStringOf, isNullish]
      · simp only [wellTypedVal] at hwt
        norm_num at hwt
        match v, hwt with
        | .num m, _ =>
          refine ⟨_, createField_number path _, ?_⟩
          have h1 : jsIsNumberString (jsNumberToString m) = true := by
            simp [jsIsNumberString, jsStringToIntOpt_jsNumberToString]
          have h2 : jsStringToNumber (jsNumberToString m) = m := by
            simp [jsStringToNumber, jsStringToIntOpt_jsNumberToString]
          simp [getFieldData, getNumberFieldData, createScalarField,
            scalarFieldApply, coerceNumber, isNumberStringV, jsToNumber,
            h1, h2]
      · simp only [wellTypedVal] at hwt
        norm_num at hwt
        match v, hwt with
        | .num m, _ =>
          refine ⟨_, createField_numberOpt path _, ?_⟩
          have h1 : jsIsNumberString (jsNumberToString m) = true := by
            simp [jsIsNumberString, jsStringToIntOpt_jsNumberToString]
          have h2 : jsStringToNumber (jsNumberToString m) = m := by
            simp [jsStringToNumber, jsStringToIntOpt_jsNumberToString]
          simp [getFieldData, getNumberFieldData, createScalarField,
            scalarFieldApply, coerceNumber, isNumberStringV, jsToNumber,
            h1, h2]
      · simp only [wellTypedVal] at hwt
        norm_num at hwt
        match v, hwt with
        | .boolV b, _ =>
          refine ⟨_, createField_boolean path _, ?_⟩
          simp [getFieldData, getBooleanFieldData, createScalarField,
            scalarFieldApply, coerceBoolean, isNullish]
      · simp only [wellTypedVal] at hwt
        norm_num at hwt
        match v, hwt with
        | .boolV b, _ =>
          refine ⟨_, createField_booleanOpt path _, ?_⟩
          simp [getFieldData, getBooleanFieldData, createScalarField,
            scalarFieldApply, coerceBoolean, isNullish]
      · simp only [wellTypedVal] at hwt
        norm_num at hwt
        match v, hwt with
        | .date bv ms, hwt =>
          have hbv : bv = true := by
            cases bv
            · simp [isDateV] at hwt
            · rfl
          subst hbv
          refine ⟨_, createField_date path _, ?_⟩
          simp [getFieldData, getDateFieldData, createScalarField,
            scalarFieldApply, dateCoerce, isDateV]
      · simp only [wellTypedVal] at hwt
        norm_num at hwt
        match v, hwt with
        | .date bv ms, hwt =>
          have hbv : bv = true := by
            cases bv
            · simp [isDateV] at hwt
            · rfl
          subst hbv
          refine ⟨_, createField_dateOpt path _, ?_⟩
          simp [getFieldData, getDateFieldData, createScalarField,
            scalarFieldApply, dateCoerce, isDateV]
      · simp only [wellTypedVal] at hwt
        norm_num at hwt
        match v, hwt with
        | .file nm szf, _ =>
          refine ⟨_, createField_file path _, ?_⟩
          simp [getFieldData, getFileFieldData, createScalarField,
            scalarFieldApply, coerceFile, isFileV]
      · simp only [wellTypedVal] at hwt
        norm_num at hwt
        match v, hwt with
        | .file nm szf, _ =>
          refine ⟨_, createField_fileOpt path _, ?_⟩
          simp [getFieldData, getFileFieldData, createScalarField,
            scalarFieldApply, coerceFile, isFileV]
    | .arr .nil => simp [wellFormedSchema] at hwf
    | .arr (.cons t .nil) =>
      simp only [wellFormedSchema] at hwf
      match v, hwt with
      | .arr xs, hwt =>
        simp only [wellTypedVal] at hwt
        have hszt : sizeOf t < n := by
          have h1 : sizeOf t < sizeOf (SchemaVal.arr (.cons t .nil)) := by
            simp only [SchemaVal.arr.sizeOf_spec,
              SchemaList.cons.sizeOf_spec]
            omega
          omega
        have hb : ∀ path v, wellTypedVal t v = true →
            ∃ f, createField t path v = .ok f ∧ getFieldData f = .ok v :=
          fun path v hv => ih (sizeOf t) hszt t le_rfl hwf path v hv
        obtain ⟨fs, hok, hext⟩ := buildArrayElems_rt (createField t)
          (wellTypedVal t) hb xs 0 path hwt
        refine ⟨.array path xs fs, ?_, ?_⟩
        · simp [createField, rawElems, hok]
        · simp [getFieldData, hext]
    | .arr (.cons t (.cons u rest)) => simp [wellFormedSchema] at hwf
    | .obj entries =>
      simp only [wellFormedSchema] at hwf
      match v, hwt with
      | .obj es, hwt =>
        simp only [wellTypedVal, Bool.and_eq_true] at hwt
        obtain ⟨hnd, hwto⟩ := hwt
        have hrt : ∀ sub ∈ schemaObjSub entries, ∀ path v,
            wellTypedVal sub v = true →
            ∃ f, createField sub path v = .ok f ∧ getFieldData f = .ok v := by
          intro sub hm path v hv
          have h1 : sizeOf sub < n := by
            have h2 := schemaObjSub_sizeOf entries sub hm
            have h3 : sizeOf entries < sizeOf (SchemaVal.obj entries) := by
              simp only [SchemaVal.obj.sizeOf_spec]
              omega
            omega
          exact ih (sizeOf sub) h1 sub le_rfl
            (wellFormedObjSchema_sub entries hwf sub hm) path v hv
        obtain ⟨fs, hok, hext⟩ := createObjectFields_rt entries hrt es
          .nil es path rfl hnd hwto
        refine ⟨.object fs, ?_, ?_⟩
        · simp [createField, hok]
        · simp [getFieldData, hext]
    | .nullS => simp [wellFormedSchema] at hwf
    | .undefS => simp [wellFormedSchema] at hwf
    | .numS m => simp [wellFormedSchema] at hwf
    | .boolS b => simp [wellFormedSchema] at hwf

/-! ## Fail-fast extraction -/

theorem getObjectFieldData_append_error :
    ∀ (pre : FieldObj) (vs : RawObj) (k : String) (f : FormField)
      (rest : FieldObj) (e : String),
      getObjectFieldData pre = .ok vs → getFieldData f = .error e →
      getObjectFieldData (fieldObjAppend pre (.cons k f rest)) = .error e := by
  intro pre
  induction pre using fieldObjInduct with
  | nil =>
    intro vs k f rest e hpre hf
    simp [fieldObjAppend, getObjectFieldData, hf]
  | cons k0 f0 t ih =>
    intro vs k f rest e hpre hf
    simp only [getObjectFieldData] at hpre
    match hf0 : getFieldData f0 with
    | .error e0 => rw [hf0] at hpre; simp at hpre
    | .ok v0 =>
      rw [hf0] at hpre
      simp only [exceptBindOk] at hpre
      match ht : getObjectFieldData t with
      | .error e1 => rw [ht] at hpre; simp at hpre
      | .ok vs1 =>
        simp only [fieldObjAppend, getObjectFieldData, hf0, exceptBindOk]
        rw [ih vs1 k f rest e ht hf]
        rfl

/-! ## Claim theorems -/

/-- Claim C1 (counterexample): for the scalar field built by the form
factory from the schema mapping name to 'string' over the value mapping name to 'a', a
one-argument call with `'b'` returns `'b'` and invokes the setter exactly
once with `'b'`, but an immediate zero-argument call on the same field
still returns `'a'`, not the new value `'b'` — refuting the claimed
read-after-write visibility within the same tick. -/
theorem scalarField_writeThenRead_counterexample :
    createForm (.cons "name" (.tag "string") .nil)
        (.obj (.cons "name" (.str "a") .nil)) =
      .ok (.cons "name" (.scalar (createScalarField .string [.prop "name"]
        true (.str "a"))) .nil) ∧
    scalarFieldApply (createScalarField .string [.prop "name"] true
      (.str "a")) [.str "b"] = (.str "b", [.str "b"]) ∧
    scalarFieldApply (createScalarField .string [.prop "name"] true
      (.str "a")) [] = (.str "a", []) ∧
    (RawVal.str "a") ≠ (RawVal.str "b") := by
  refine ⟨?_, rfl, rfl, by simp⟩
  simp [createForm, createObjectFields, createField, createScalarField,
    coerceString, rawGetKey, objLookup, isStringV, isNumberV, isDateV,
    jsStringOf]

/-- Claim C1 (amended): a one-argument call on a scalar field returns the
passed value and invokes the associated setter exactly once with it, but
the field's captured value is unchanged, so an immediate zero-argument
call returns the value captured when the field was built — not the newly
written value (the write is visible through the field only after the tree
is rebuilt from the updated backing state). -/
theorem scalarField_call_returns_captured_value (tag : ScalarTag)
    (path : List Key) (req : Bool) (stored v : RawVal) :
    scalarFieldApply (createScalarField tag path req stored) [v] =
      (v, [v]) ∧
    scalarFieldApply (createScalarField tag path req stored) [] =
      (stored, []) :=
  ⟨rfl, rfl⟩

/-- Claim C2: for every well-formed schema and every fully-populated,
well-typed backing value matching it, building the field tree succeeds and
extracting it returns exactly the backing value (number fields, which are
numbers in a well-typed backing value, come back as numbers — the string
buffer roundtrips through the decimal printer/parser). -/
theorem build_extract_roundtrip (sch : SchemaVal)
    (hwf : wellFormedSchema sch = true) (path : List Key) (v : RawVal)
    (hwt : wellTypedVal sch v = true) :
    ∃ f, createField sch path v = .ok f ∧ getFieldData f = .ok v :=
  createField_wt_roundtrip (sizeOf sch) sch le_rfl hwf path v hwt

/-- Claim C2 (witness): a concrete two-field schema with a number and an
array of strings roundtrips. -/
theorem build_extract_roundtrip_witness :
    wellFormedSchema (.obj (.cons "n" (.tag "number")
        (.cons "tags" (.arr (.cons (.tag "string") .nil)) .nil))) = true ∧
    wellTypedVal (.obj (.cons "n" (.tag "number")
        (.cons "tags" (.arr (.cons (.tag "string") .nil)) .nil)))
      (.obj (.cons "n" (.num 5)
        (.cons "tags" (.arr (.cons (.str "x") .nil)) .nil))) = true ∧
    ∃ f, createField (.obj (.cons "n" (.tag "number")
        (.cons "tags" (.arr (.cons (.tag "string") .nil)) .nil))) []
        (.obj (.cons "n" (.num 5)
          (.cons "tags" (.arr (.cons (.str "x") .nil)) .nil))) = .ok f ∧
      getFieldData f = .ok (.obj (.cons "n" (.num 5)
        (.cons "tags" (.arr (.cons (.str "x") .nil)) .nil))) := by
  refine ⟨?_, ?_, ?_⟩
  · simp [wellFormedSchema, wellFormedObjSchema]
  · simp [wellTypedVal, wellTypedObjVal, rawObjKeysNodup, rawObjHasKey,
      allRawList, isNumberV, isStringV]
  · exact build_extract_roundtrip _
      (by simp [wellFormedSchema, wellFormedObjSchema]) []
      _
      (by simp [wellTypedVal, wellTypedObjVal, rawObjKeysNodup,
        rawObjHasKey, allRawList, isNumberV, isStringV])

/-- Claim C3: extraction of a number-typed scalar field reads the stored
string buffer; a well-formed numeric string yields the parsed number;
otherwise a validation error naming the field's dotted path and the raw
value is raised exactly when the field is required, and `null` is
returned when it is not. -/
theorem numberField_extraction_spec (path : List Key) (req : Bool)
    (stored : RawVal) :
    (∀ s, stored = .str s → jsIsNumberString s = true →
      getFieldData (.scalar (createScalarField .number path req stored)) =
        .ok (.num (jsStringToNumber s))) ∧
    (isNumberStringV stored = false → req = true →
      getFieldData (.scalar (createScalarField .number path req stored)) =
        .error ("field " ++ pathJoinDot path ++ " is required; got " ++
          jsonStringify stored)) ∧
    (isNumberStringV stored = false → req = false →
      getFieldData (.scalar (createScalarField .number path req stored)) =
        .ok .nullV) := by
  refine ⟨?_, ?_, ?_⟩
  · rintro s rfl hnum
    simp [getFieldData, getNumberFieldData, createScalarField,
      scalarFieldApply, isNumberStringV, hnum, jsToNumber]
  · rintro hnot rfl
    simp [getFieldData, getNumberFieldData, createScalarField,
      scalarFieldApply, hnot, requiredMsg]
  · rintro hnot rfl
    simp [getFieldData, getNumberFieldData, createScalarField,
      scalarFieldApply, hnot]

/-- Claim C3 (witness): concrete instances — numeric buffer `'42'` parses
to `42`; a null buffer on a required field raises the validation error
naming path `a.0`; a null buffer on an optional field extracts `null`. -/
theorem numberField_extraction_spec_witness :
    getFieldData (.scalar (createScalarField .number [.prop "a", .idx 0]
        true (.str "42"))) = .ok (.num 42) ∧
    getFieldData (.scalar (createScalarField .number [.prop "a", .idx 0]
        true .nullV)) = .error "field a.0 is required; got null" ∧
    getFieldData (.scalar (createScalarField .number [.prop "a", .idx 0]
        false .nullV)) = .ok .nullV := by
  refine ⟨?_, ?_, ?_⟩
  · have h := (numberField_extraction_spec [.prop "a", .idx 0] true
      (.str "42")).1 "42" rfl (by decide)
    have h42 : jsStringToNumber "42" = 42 := by decide
    rw [h42] at h
    exact h
  · have h := (numberField_extraction_spec [.prop "a", .idx 0] true
      .nullV).2.1 (by decide) rfl
    rw [h]
    rfl
  · exact (numberField_extraction_spec [.prop "a", .idx 0] false
      .nullV).2.2 (by decide) rfl

/-- Claim C4: extracting any required scalar field whose stored value is
null raises the validation error whose message spells out the field's full
dotted path and the raw stored value; and in a whole-tree extraction the
first failing entry aborts everything — entries before it may succeed, yet
the result is that error, never a partial object. -/
theorem requiredNull_extraction_spec :
    (∀ (tag : ScalarTag) (path : List Key),
      getFieldData (.scalar (createScalarField tag path true .nullV)) =
        .error ("field " ++ pathJoinDot path ++ " is required; got null")) ∧
    (∀ (pre : FieldObj) (vs : RawObj) (k : String) (f : FormField)
      (rest : FieldObj) (e : String),
      getObjectFieldData pre = .ok vs → getFieldData f = .error e →
      getFormData (fieldObjAppend pre (.cons k f rest)) = .error e) := by
  constructor
  · intro tag path
    cases tag <;>
      simp [getFieldData, getNumberFieldData, getStringFieldData,
        getBooleanFieldData, getDateFieldData, getFileFieldData,
        createScalarField, scalarFieldApply, isNumberStringV, isNullish,
        isDateV, isFileV, requiredMsg, jsonStringify] <;>
      (rw [String.append_assoc]; rfl)
  · intro pre vs k f rest e hpre hf
    exact getObjectFieldData_append_error pre vs k f rest e hpre hf

/-- Claim C4 (witness): for a tree whose first entry extracts fine and
whose second is a required number field with a null buffer, the whole
extraction is exactly the validation error for `n`, with no partial
result. -/
theorem requiredNull_extraction_spec_witness :
    getFieldData (.scalar (createScalarField .number [.prop "n"] true
      .nullV)) = .error "field n is required; got null" ∧
    getFormData (fieldObjAppend
        (.cons "a" (.scalar (createScalarField .string [.prop "a"] true
          (.str "x"))) .nil)
        (.cons "n" (.scalar (createScalarField .number [.prop "n"] true
          .nullV))
          (.cons "z" (.scalar (createScalarField .boolean [.prop "z"]
            false .nullV)) .nil))) =
      .error "field n is required; got null" := by
  have h1 := requiredNull_extraction_spec.1 ScalarTag.number [.prop "n"]
  constructor
  · exact h1
  · refine requiredNull_extraction_spec.2
      (.cons "a" (.scalar (createScalarField .string [.prop "a"] true
        (.str "x"))) .nil)
      (.cons "a" (.str "x") .nil) "n" _ _ _ ?_ h1
    simp [getObjectFieldData, getFieldData, getStringFieldData,
      createScalarField, scalarFieldApply, isNullish]

/-- Claim C5: for every well-formed schema (recognized scalar tags,
single-element arrays, object mappings) the field-tree builder succeeds on
every backing value of any shape — malformed backing values only degrade
to null scalars, empty arrays, or empty objects, and no error is raised. -/
theorem build_neverRaises_on_wellFormed (sch : SchemaVal)
    (hwf : wellFormedSchema sch = true) (path : List Key) (v : RawVal) :
    ∃ f, createField sch path v = .ok f :=
  createField_wf_ok (sizeOf sch) sch le_rfl hwf path v

/-- Claim C5 (witness): a nested schema built over a nonsense backing
value (a bare string where an object is expected) still builds. -/
theorem build_neverRaises_on_wellFormed_witness :
    wellFormedSchema (.obj (.cons "n" (.tag "number")
        (.cons "tags" (.arr (.cons (.tag "string") .nil))
          (.cons "sub" (.obj (.cons "d" (.tag "date?") .nil)) .nil)))) =
      true ∧
    ∃ f, createField (.obj (.cons "n" (.tag "number")
        (.cons "tags" (.arr (.cons (.tag "string") .nil))
          (.cons "sub" (.obj (.cons "d" (.tag "date?") .nil)) .nil)))) []
        (.str "garbage") = .ok f := by
  refine ⟨?_, ?_⟩
  · simp [wellFormedSchema, wellFormedObjSchema]
  · exact build_neverRaises_on_wellFormed _
      (by simp [wellFormedSchema, wellFormedObjSchema]) [] (.str "garbage")

/-- Claim C6 (counterexample): `createObjectField` performs no
copy-on-write — over an object-typed raw value its backing object IS the
caller's original object (the same reference, with the heap untouched by
the choice), and setting a sub-field mutates the object behind that very
reference: the caller's original object afterwards holds the new key
value, refuting "the caller's original raw object is not itself the
mutated object". -/
theorem objectField_copyOnWrite_counterexample :
    createObjectFieldBacking (.ref 0) [[("a", .prim .nullV)]] =
      (0, [[("a", .prim .nullV)]]) ∧
    objectFieldChildSet 0 "a" (.prim (.str "x")) [[("a", .prim .nullV)]] =
      ([[("a", .prim (.str "x"))]], [.ref 0]) ∧
    heapGet [[("a", .prim (.str "x"))]] 0 ≠
      heapGet [[("a", .prim .nullV)]] 0 := by
  refine ⟨rfl, ?_, by decide⟩
  show (heapSetKey [[("a", .prim .nullV)]] 0 "a" (.prim (.str "x")),
    [HVal.ref 0]) = _
  decide

/-- Claim C6 (amended): setting a sub-field of an object field writes the
key into the backing object in place — and when the raw value is
object-typed, that backing object is the caller's original object itself
(same reference, no copy) — then re-invokes the object's own setter with
that backing object; only when the raw value is not object-typed do
writes go into a freshly allocated empty object. -/
theorem objectField_inPlace_write_semantics (r : Nat) (h : Heap)
    (key : String) (w : HVal) (hr : r < h.length) :
    createObjectFieldBacking (.ref r) h = (r, h) ∧
    objectFieldChildSet r key w h = (heapSetKey h r key w, [.ref r]) ∧
    heapGet (heapSetKey h r key w) r = entriesSetKey (heapGet h r) key w ∧
    (∀ v : RawVal, createObjectFieldBacking (.prim v) h =
      (h.length, h ++ [[]])) := by
  refine ⟨rfl, rfl, ?_, fun v => rfl⟩
  simp only [heapGet, heapSetKey, List.getD_eq_getElem?_getD]
  rw [List.getElem?_set_eq_of_lt _ hr]
  rfl

/-- Claim C6 (witness): a concrete one-object heap — the backing of the
field is reference 0 itself, the write updates the entries behind it, and
a non-object raw value gets a fresh empty object at the end of the
heap. -/
theorem objectField_inPlace_write_semantics_witness :
    createObjectFieldBacking (.ref 0) [[("a", .prim .nullV)]] =
      (0, [[("a", .prim .nullV)]]) ∧
    objectFieldChildSet 0 "b" (.prim (.num 1)) [[("a", .prim .nullV)]] =
      (heapSetKey [[("a", .prim .nullV)]] 0 "b" (.prim (.num 1)),
        [.ref 0]) ∧
    heapGet (heapSetKey [[("a", .prim .nullV)]] 0 "b" (.prim (.num 1))) 0 =
      entriesSetKey (heapGet [[("a", .prim .nullV)]] 0) "b"
        (.prim (.num 1)) ∧
    createObjectFieldBacking (.prim (.str "s")) [[("a", .prim .nullV)]] =
      (1, [[("a", .prim .nullV)]] ++ [[]]) := by
  have h := objectField_inPlace_write_semantics 0 [[("a", .prim .nullV)]]
    "b" (.prim (.num 1)) (by decide)
  exact ⟨h.1, h.2.1, h.2.2.1, h.2.2.2 (.str "s")⟩

/-- Claim C7 (code bug): `field.splice` declares `deleteCount: number = 0`,
so a call with the count argument omitted removes NOTHING — on backing
`['a','b']`, `splice(0)` returns `[]`, leaves the array `['a','b']`, and
invokes the setter with the unchanged array — whereas standard
`Array.prototype.splice(start)` semantics (and the README's documented
pass-through equivalence) remove and return everything from the start
index to the end, as the second conjunct computes. -/
theorem splice_omittedCount_removesNothing_eval :
    arrayFieldSplice (mkArrayFieldState [.prop "tags"]
        (.arr (.cons (.str "a") (.cons (.str "b") .nil)))) 0 none [] =
      (.nil,
        mkArrayFieldState [.prop "tags"]
          (.arr (.cons (.str "a") (.cons (.str "b") .nil))),
        [.arr (.cons (.str "a") (.cons (.str "b") .nil))]) ∧
    jsArraySpliceNoCount (.cons (.str "a") (.cons (.str "b") .nil)) 0 =
      (.cons (.str "a") (.cons (.str "b") .nil), .nil) := by
  constructor
  · decide
  · decide

/-- Claim C8: a one-argument call on an array field invokes the setter
with the passed array and returns it, but never reassigns the captured
backing array: a subsequent zero-argument call still returns the backing
array captured when the field was built, which differs from the newly
passed array whenever their contents differ. -/
theorem arrayField_oneArgCall_keepsBacking (s : ArrayFieldState)
    (newV : RawVal) (h : newV ≠ .arr s.v) :
    arrayFieldApply s [newV] = (newV, s, [newV]) ∧
    arrayFieldApply s [] = (.arr s.v, s, []) ∧
    (arrayFieldApply s []).1 ≠ newV := by
  refine ⟨rfl, rfl, ?_⟩
  exact fun hEq => h hEq.symm

/-- Claim C8 (witness): concrete backing `['a']`; after `field(['z'])`
the zero-argument call still returns `['a']`. -/
theorem arrayField_oneArgCall_keepsBacking_witness :
    arrayFieldApply (mkArrayFieldState [.prop "tags"]
        (.arr (.cons (.str "a") .nil)))
      [.arr (.cons (.str "z") .nil)] =
      (.arr (.cons (.str "z") .nil),
        mkArrayFieldState [.prop "tags"] (.arr (.cons (.str "a") .nil)),
        [.arr (.cons (.str "z") .nil)]) ∧
    arrayFieldApply (mkArrayFieldState [.prop "tags"]
        (.arr (.cons (.str "a") .nil))) [] =
      (.arr (.cons (.str "a") .nil),
        mkArrayFieldState [.prop "tags"] (.arr (.cons (.str "a") .nil)),
        []) ∧
    (arrayFieldApply (mkArrayFieldState [.prop "tags"]
        (.arr (.cons (.str "a") .nil))) []).1 ≠
      .arr (.cons (.str "z") .nil) :=
  arrayField_oneArgCall_keepsBacking
    (mkArrayFieldState [.prop "tags"] (.arr (.cons (.str "a") .nil)))
    (.arr (.cons (.str "z") .nil)) (by decide)

/-- Claim C9: for a date or date? field, a numeric-string raw value is
interpreted as a millisecond timestamp — the date is constructed from its
numeric value, with calendar-string parsing never consulted — while
calendar parsing is attempted only for non-numeric strings; in either
branch an invalid resulting date is stored as null. -/
theorem dateField_numericString_priority (s : String) :
    (jsIsNumberString s = true →
      dateCoerce (.str s) =
        (if isDateV (jsNewDateFromNumber (jsStringToNumber s)) then
          jsNewDateFromNumber (jsStringToNumber s) else .nullV)) ∧
    (jsIsNumberString s = false →
      dateCoerce (.str s) =
        (if isDateV (jsNewDateFromString s) then jsNewDateFromString s
         else .nullV)) ∧
    (∀ path v, createField (.tag "date") path v =
        .ok (.scalar (createScalarField .date path true (dateCoerce v))) ∧
      createField (.tag "date?") path v =
        .ok (.scalar (createScalarField .date path false
          (dateCoerce v)))) := by
  refine ⟨?_, ?_, fun path v =>
    ⟨createField_date path v, createField_dateOpt path v⟩⟩
  · intro h
    simp [dateCoerce, isDateV, isNumberV, isNumberStringV, h, jsToNumber,
      jsStringToNumber]
  · intro h
    simp [dateCoerce, isDateV, isNumberV, isNumberStringV, isStringV, h,
      jsStringOf]

/-- Claim C9 (witness): `'86400000'` is numeric and becomes the timestamp
86400000; `'1970-01-02'` is not numeric and goes through calendar parsing
to the same date; `'zzz'` parses to an invalid date and is stored as
null. -/
theorem dateField_numericString_priority_witness :
    dateCoerce (.str "86400000") = .date true 86400000 ∧
    dateCoerce (.str "1970-01-02") = .date true 86400000 ∧
    dateCoerce (.str "zzz") = .nullV := by
  refine ⟨?_, ?_, ?_⟩
  · exact ((dateField_numericString_priority "86400000").1
      (by decide)).trans (by decide)
  · exact ((dateField_numericString_priority "1970-01-02").2.1
      (by decide)).trans (by decide)
  · exact ((dateField_numericString_priority "zzz").2.1
      (by decide)).trans (by decide)

/-- Claim C10: `pop()` and `shift()` on an array field with an empty
backing array raise nothing, return no element (`undefined`), and still
invoke the field's setter exactly once with the still-empty backing
array. -/
theorem arrayField_popShift_onEmpty (s : ArrayFieldState)
    (h : s.v = .nil) :
    arrayFieldPop s = (.undefV, s, [.arr .nil]) ∧
    arrayFieldShift s = (.undefV, s, [.arr .nil]) := by
  obtain ⟨p, v⟩ := s
  simp only at h
  subst h
  exact ⟨rfl, rfl⟩

/-- Claim C10 (witness): a field built over a non-array raw value captures
the empty backing array; pop and shift return `undefined` and call the
setter once with `[]`. -/
theorem arrayField_popShift_onEmpty_witness :
    (mkArrayFieldState [.prop "xs"] .nullV).v = .nil ∧
    arrayFieldPop (mkArrayFieldState [.prop "xs"] .nullV) =
      (.undefV, mkArrayFieldState [.prop "xs"] .nullV, [.arr .nil]) ∧
    arrayFieldShift (mkArrayFieldState [.prop "xs"] .nullV) =
      (.undefV, mkArrayFieldState [.prop "xs"] .nullV, [.arr .nil]) := by
  refine ⟨rfl, ?_⟩
  exact arrayField_popShift_onEmpty (mkArrayFieldState [.prop "xs"] .nullV)
    rfl
